import Mathlib

/-!
Shallow embedding of the UVM assembler/interpreter (spec.py, encoder.py,
interpreter.py) and verification of its specified properties.

Machine integers are modelled as `Nat`; Python byte strings as `List Nat`;
Python exceptions as `Except String`; the mutable `UVMMemory` object as an
explicit state record threaded through the step functions.
-/

namespace UVM

/-- Opcode constants from `UVMSpec` (spec.py). -/
def LOAD_CONST : Nat := 29

def READ_MEM : Nat := 18

def WRITE_MEM : Nat := 9

def ABS : Nat := 25

/-- Bit-field masks as returned by `UVMSpec.get_field_masks`:
each field is a (mask, shift) pair. -/
structure Masks where
  A : Nat × Nat
  B : Nat × Nat
  C : Nat × Nat
deriving DecidableEq, Repr

/-- `UVMSpec.get_field_masks` (spec.py): immediate layout for LOAD_CONST,
register layout for every other opcode. -/
def get_field_masks (opcode : Nat) : Masks :=
  if opcode = LOAD_CONST then
    ⟨(0x3F, 0), (0xFFFFF, 6), (0x1F, 26)⟩
  else
    ⟨(0x3F, 0), (0x1F, 6), (0x1F, 11)⟩

/-- The operand dictionary of a command; the source always carries
exactly the keys B and C. -/
structure Operands where
  B : Nat
  C : Nat
deriving DecidableEq, Repr

/-- `UVMSpec.validate_command` (spec.py): `.ok` models returning True,
`.error` models raising `ValueError` with the given message class. -/
def validate_command (opcode : Nat) (operands : Operands) : Except String Unit :=
  if opcode ∉ [LOAD_CONST, READ_MEM, WRITE_MEM, ABS] then
    .error "unknown opcode"
  else if opcode = LOAD_CONST ∧ ¬ operands.B ≤ 0xFFFFF then
    .error "constant B out of range 0..0xFFFFF"
  else if opcode ≠ LOAD_CONST ∧ ¬ operands.B ≤ 0x1F then
    .error "address B out of range 0..31"
  else if ¬ operands.C ≤ 0x1F then
    .error "address C out of range 0..31"
  else
    .ok ()

/-- A command in the intermediate representation handed to the encoder. -/
structure Command where
  opcode : Nat
  operands : Operands
deriving DecidableEq, Repr

/-- Python's `value.to_bytes(size, byteorder='little')`: `size` bytes,
least significant first. -/
def to_bytes_le (value : Nat) : Nat → List Nat
  | 0 => []
  | size + 1 => (value % 256) :: to_bytes_le (value / 256) size

/-- Python's `int.from_bytes(bs, byteorder='little')`. -/
def int_from_bytes_le (bs : List Nat) : Nat :=
  bs.foldr (fun b acc => acc * 256 + b) 0

/-- `CommandEncoder.encode_command` (encoder.py): packs opcode and the two
operands through the field masks and serializes 4 bytes little-endian.
`UVMSpec.COMMAND_SIZES.get(opcode, 4)` is 4 for every opcode. -/
def encode_command (cmd : Command) : List Nat :=
  let masks := get_field_masks cmd.opcode
  let value :=
    ((cmd.opcode &&& masks.A.1) <<< masks.A.2) |||
    ((cmd.operands.B &&& masks.B.1) <<< masks.B.2) |||
    ((cmd.operands.C &&& masks.C.1) <<< masks.C.2)
  to_bytes_le value 4

/-- `CommandEncoder.encode_program` (encoder.py): concatenates the encodings
of all commands, in order.  Note: the source performs no validation here. -/
def encode_program (intermediate_repr : List Command) : List Nat :=
  intermediate_repr.flatMap encode_command

/-- A decoded instruction as produced by `UVMMemory.decode_instruction`
(the `description` and raw `bytes` entries of the Python dict carry no
control-relevant information and are omitted). -/
structure Decoded where
  opcode : Nat
  operands : Operands
deriving DecidableEq, Repr

/-- `UVMMemory.decode_instruction` (interpreter.py): rejects chunks that are
not exactly 4 bytes, extracts the 6-bit opcode, selects the field layout by
opcode, extracts B and C, and re-validates. -/
def decode_instruction (instruction_bytes : List Nat) : Except String Decoded :=
  if instruction_bytes.length ≠ 4 then
    .error "instruction must be 4 bytes"
  else
    let instruction := int_from_bytes_le instruction_bytes
    let opcode := (instruction >>> 0) &&& 0x3F
    let ops : Operands :=
      if opcode = LOAD_CONST then
        ⟨(instruction >>> 6) &&& 0xFFFFF, (instruction >>> 26) &&& 0x1F⟩
      else
        ⟨(instruction >>> 6) &&& 0x1F, (instruction >>> 11) &&& 0x1F⟩
    match validate_command opcode ops with
    | .error e => .error e
    | .ok _ => .ok ⟨opcode, ops⟩

/-- The `stats` dictionary of `UVMMemory`. -/
structure Stats where
  instructions_executed : Nat
  memory_reads : Nat
  memory_writes : Nat
deriving DecidableEq, Repr

/-- The mutable state of `UVMMemory` (interpreter.py). -/
structure UVMMemory where
  code_memory : List Nat
  data_memory : List Nat
  registers : List Nat
  pc : Nat
  halted : Bool
  stats : Stats
deriving DecidableEq, Repr

/-- `UVMMemory.__init__` with a program already loaded into code memory
(`load_program` only copies the file bytes in). -/
def initState (code : List Nat) (data_size reg_count : Nat) : UVMMemory :=
  { code_memory := code
    data_memory := List.replicate data_size 0
    registers := List.replicate reg_count 0
    pc := 0
    halted := false
    stats := ⟨0, 0, 0⟩ }

/-- `UVMMemory.read_instruction` (interpreter.py): returns the fetched bytes
(`none` models returning None) together with the updated state. -/
def read_instruction (s : UVMMemory) : Option (List Nat) × UVMMemory :=
  if s.code_memory.length ≤ s.pc then
    (none, { s with halted := true })
  else if s.code_memory.length < s.pc + 4 then
    (some (s.code_memory.drop s.pc), { s with pc := s.code_memory.length })
  else
    (some ((s.code_memory.drop s.pc).take 4), { s with pc := s.pc + 4 })

/-- `UVMMemory.execute_load_const` (interpreter.py): `registers[C] = B`.
A register index outside the register file would raise IndexError in
Python; that is modelled by the `.error` branch. -/
def execute_load_const (s : UVMMemory) (operands : Operands) : Except String UVMMemory :=
  if operands.C < s.registers.length then
    .ok { s with registers := s.registers.set operands.C operands.B }
  else
    .error "register index out of range"

/-- `UVMMemory.execute_read_mem` (interpreter.py): resolve the address from
register C, bounds-check against data memory, read the cell into register B
and count the read; an out-of-range address raises IndexError. -/
def execute_read_mem (s : UVMMemory) (operands : Operands) : Except String UVMMemory :=
  match s.registers.get? operands.C with
  | none => .error "register index out of range"
  | some mem_addr =>
    if mem_addr < s.data_memory.length then
      let value := s.data_memory.getD mem_addr 0
      if operands.B < s.registers.length then
        .ok { s with
              registers := s.registers.set operands.B value
              stats := { s.stats with memory_reads := s.stats.memory_reads + 1 } }
      else
        .error "register index out of range"
    else
      .error "memory address out of range"

/-- `UVMMemory.execute_write_mem` (interpreter.py): resolve the address from
register B, take the value from register C, bounds-check, write the cell and
count the write; an out-of-range address raises IndexError. -/
def execute_write_mem (s : UVMMemory) (operands : Operands) : Except String UVMMemory :=
  match s.registers.get? operands.B with
  | none => .error "register index out of range"
  | some mem_addr =>
    match s.registers.get? operands.C with
    | none => .error "register index out of range"
    | some value =>
      if mem_addr < s.data_memory.length then
        .ok { s with
              data_memory := s.data_memory.set mem_addr value
              stats := { s.stats with memory_writes := s.stats.memory_writes + 1 } }
      else
        .error "memory address out of range"

/-- `UVMMemory.execute_instruction` (interpreter.py): dispatch on the opcode;
ABS is executed as a NOP; an unknown opcode raises ValueError. -/
def execute_instruction (s : UVMMemory) (decoded : Decoded) : Except String UVMMemory :=
  if decoded.opcode = LOAD_CONST then
    execute_load_const s decoded.operands
  else if decoded.opcode = READ_MEM then
    execute_read_mem s decoded.operands
  else if decoded.opcode = WRITE_MEM then
    execute_write_mem s decoded.operands
  else if decoded.opcode = ABS then
    .ok s
  else
    .error "unknown opcode"

/-- `UVMMemory.step` (interpreter.py): one fetch-decode-execute step.  The
returned Bool models the Python return value; decode and execution errors
are caught, halt the machine and yield `false`. -/
def step (s : UVMMemory) : UVMMemory × Bool :=
  if s.halted then (s, false)
  else
    match read_instruction s with
    | (none, s1) => ({ s1 with halted := true }, false)
    | (some instruction_bytes, s1) =>
      match decode_instruction instruction_bytes with
      | .error _ => ({ s1 with halted := true }, false)
      | .ok decoded =>
        match execute_instruction s1 decoded with
        | .error _ => ({ s1 with halted := true }, false)
        | .ok s2 =>
          ({ s2 with stats :=
              { s2.stats with instructions_executed := s2.stats.instructions_executed + 1 } },
           true)

/-- `UVMMemory.run` (interpreter.py): steps while the machine is not halted
and fewer than `max_steps` successful steps have happened; the Python method
returns `self.halted`, read off the returned state here. -/
def run (s : UVMMemory) : Nat → UVMMemory
  | 0 => s
  | max_steps + 1 =>
    if s.halted then s
    else
      match step s with
      | (s1, true) => run s1 max_steps
      | (s1, false) => s1

/-- The element tree built by `UVMMemory.dump_memory_xml` (interpreter.py):
program counters, the sparse non-zero registers and the sparse non-zero data
cells of the requested address window. -/
structure MemoryDump where
  instructions_executed : Nat
  memory_reads : Nat
  memory_writes : Nat
  program_counter : Nat
  registers : List (Nat × Nat)
  start_address : Nat
  end_address : Nat
  total_size : Nat
  cells : List (Nat × Nat)
deriving DecidableEq, Repr

/-- `UVMMemory.dump_memory_xml` (interpreter.py), up to serialization:
`end?` models the optional `end_addr` argument (None defaults to
`min(len(data_memory), start_addr + 100)`); only registers and cells whose
value is non-zero are emitted, in index order. -/
def dump_memory_xml (s : UVMMemory) (start_addr : Nat) (end? : Option Nat) : MemoryDump :=
  let end_addr := end?.getD (min s.data_memory.length (start_addr + 100))
  { instructions_executed := s.stats.instructions_executed
    memory_reads := s.stats.memory_reads
    memory_writes := s.stats.memory_writes
    program_counter := s.pc
    registers := s.registers.enum.filter (fun p => p.2 ≠ 0)
    start_address := start_addr
    end_address := end_addr
    total_size := s.data_memory.length
    cells :=
      (List.range' start_addr (min end_addr s.data_memory.length - start_addr)).filterMap
        (fun addr =>
          let value := s.data_memory.getD addr 0
          if value ≠ 0 then some (addr, value) else none) }

/-- Hexadecimal rendering of a value, modelling Python's `f"0x-:X-"`
formatting used for the `hex` attributes of the dump. -/
def toHex (n : Nat) : String :=
  "0x" ++ String.mk (Nat.toDigits 16 n)

/-- One XML attribute. -/
def attr (name value : String) : String :=
  " " ++ name ++ "=\x22" ++ value ++ "\x22"

/-- Deterministic serialization of the dump document, modelling the
`ET.tostring` + `minidom.toprettyxml` pipeline of `dump_memory_xml`:
a pure function of the element tree. -/
def xml_render (d : MemoryDump) : String :=
  "<uvm_memory_dump><program_info>" ++
  "<instructions_executed>" ++ toString d.instructions_executed ++ "</instructions_executed>" ++
  "<memory_reads>" ++ toString d.memory_reads ++ "</memory_reads>" ++
  "<memory_writes>" ++ toString d.memory_writes ++ "</memory_writes>" ++
  "<program_counter>" ++ toString d.program_counter ++ "</program_counter>" ++
  "</program_info><registers>" ++
  String.join (d.registers.map (fun p =>
    "<register" ++ attr "id" (toString p.1) ++ attr "value" (toString p.2) ++
    attr "hex" (toHex p.2) ++ "/>")) ++
  "</registers><data_memory" ++ attr "start_address" (toString d.start_address) ++
  attr "end_address" (toString d.end_address) ++ attr "total_size" (toString d.total_size) ++ ">" ++
  String.join (d.cells.map (fun p =>
    "<memory_cell" ++ attr "address" (toString p.1) ++ attr "value" (toString p.2) ++
    attr "hex" (toHex p.2) ++ "/>")) ++
  "</data_memory></uvm_memory_dump>"

end UVM

namespace UVM

/-- The four-instruction test program of the spec: LOAD_CONST(100,r0),
LOAD_CONST(5,r1), WRITE_MEM(addr=r0,src=r1), READ_MEM(dest=r2,addr=r0). -/
def test_program : List Command :=
  [⟨LOAD_CONST, ⟨100, 0⟩⟩, ⟨LOAD_CONST, ⟨5, 1⟩⟩,
   ⟨WRITE_MEM, ⟨0, 1⟩⟩, ⟨READ_MEM, ⟨2, 0⟩⟩]

/-- Claim C5: the encoder produces exactly the four literal little-endian
fixtures of the specification. -/
theorem encoder_fixtures :
    encode_command ⟨LOAD_CONST, ⟨515, 4⟩⟩ = [0xDD, 0x80, 0x00, 0x10] ∧
    encode_command ⟨READ_MEM, ⟨0, 2⟩⟩ = [0x12, 0x10, 0x00, 0x00] ∧
    encode_command ⟨WRITE_MEM, ⟨13, 24⟩⟩ = [0x49, 0xC3, 0x00, 0x00] ∧
    encode_command ⟨ABS, ⟨26, 22⟩⟩ = [0x99, 0xB6, 0x00, 0x00] := by
  decide

set_option maxRecDepth 8000 in
/-- Claim C4: running the four-instruction test program from the all-zero
initial state terminates normally with register r2 = 5 and
data_memory[100] = 5. -/
theorem test_program_run :
    (run (initState (encode_program test_program) 1024 32) 1000).registers.get? 2 = some 5 ∧
    (run (initState (encode_program test_program) 1024 32) 1000).data_memory.get? 100 = some 5 ∧
    (run (initState (encode_program test_program) 1024 32) 1000).halted = true := by
  decide

/-- Claim C2 fails on the code: the command READ_MEM with B = 32 fails
operand validation, yet `encode_program` still emits its 4-byte word
(with B silently masked to 0) instead of aborting with no output. -/
theorem encode_invalid_emits_output :
    validate_command READ_MEM ⟨32, 0⟩ = .error "address B out of range 0..31" ∧
    encode_program [⟨READ_MEM, ⟨32, 0⟩⟩] = [0x12, 0x00, 0x00, 0x00] :=
  ⟨rfl, rfl⟩

end UVM

namespace UVM

theorem int_from_to_bytes_le (v : Nat) :
    int_from_bytes_le (to_bytes_le v 4) = v % 2 ^ 32 := by
  show (((0 * 256 + v / 256 / 256 / 256 % 256) * 256 + v / 256 / 256 % 256) * 256
      + v / 256 % 256) * 256 + v % 256 = v % 2 ^ 32
  omega

theorem lor_add_form (op b c i j : Nat) (hop : op < 2 ^ i) (hsum : 2 ^ i * b + op < 2 ^ j) :
    op ||| b <<< i ||| c <<< j = 2 ^ j * c + (2 ^ i * b + op) := by
  rw [Nat.shiftLeft_eq, Nat.shiftLeft_eq, Nat.mul_comm b, Nat.mul_comm c]
  rw [Nat.lor_comm op, ← Nat.mul_add_lt_is_or hop]
  rw [Nat.lor_comm, ← Nat.mul_add_lt_is_or hsum]

theorem mask_eq_self (x n m : Nat) (hm : m = 2 ^ n - 1) (hx : x < 2 ^ n) :
    x &&& m = x := by
  subst hm
  rw [Nat.and_pow_two_sub_one_eq_mod]
  exact Nat.mod_eq_of_lt hx

theorem roundtrip_load (B C : Nat) (hB : B ≤ 0xFFFFF) (hC : C ≤ 0x1F) :
    decode_instruction (encode_command ⟨LOAD_CONST, ⟨B, C⟩⟩) = .ok ⟨LOAD_CONST, ⟨B, C⟩⟩ := by
  have henc : encode_command ⟨LOAD_CONST, ⟨B, C⟩⟩ =
      to_bytes_le ((29 &&& 0x3F) <<< 0 ||| (B &&& 0xFFFFF) <<< 6 ||| (C &&& 0x1F) <<< 26) 4 := rfl
  have hBB : B &&& 0xFFFFF = B := mask_eq_self B 20 _ (by norm_num) (by omega)
  have hCC : C &&& 0x1F = C := mask_eq_self C 5 _ (by norm_num) (by omega)
  have h63 : (29 : Nat) &&& 0x3F = 29 := by decide
  rw [henc, hBB, hCC, h63, Nat.shiftLeft_zero,
      lor_add_form 29 B C 6 26 (by norm_num) (by omega)]
  set v : Nat := 2 ^ 26 * C + (2 ^ 6 * B + 29) with hv
  have hvlt : v < 2 ^ 32 := by omega
  have hlen : ¬ (to_bytes_le v 4).length ≠ 4 := by simp [to_bytes_le]
  simp only [decode_instruction, hlen, if_false, int_from_to_bytes_le,
    Nat.mod_eq_of_lt hvlt, Nat.shiftRight_zero, Nat.shiftRight_eq_div_pow]
  have e0 : v / 2 ^ 0 = v := by simp
  have hop : v &&& 63 = 29 := by
    rw [(by norm_num : (63 : Nat) = 2 ^ 6 - 1), Nat.and_pow_two_sub_one_eq_mod]
    omega
  have hB2 : v / 2 ^ 6 &&& 1048575 = B := by
    rw [(by norm_num : (1048575 : Nat) = 2 ^ 20 - 1), Nat.and_pow_two_sub_one_eq_mod]
    omega
  have hC2 : v / 2 ^ 26 &&& 31 = C := by
    rw [(by norm_num : (31 : Nat) = 2 ^ 5 - 1), Nat.and_pow_two_sub_one_eq_mod]
    omega
  have hval : validate_command 29 ⟨B, C⟩ = .ok () := by
    simp [validate_command, LOAD_CONST, READ_MEM, WRITE_MEM, ABS, hB, hC]
  simp only [e0, hop, hB2, hC2, LOAD_CONST, if_pos, hval]

theorem roundtrip_reg (op B C : Nat) (hop : op = READ_MEM ∨ op = WRITE_MEM ∨ op = ABS)
    (hB : B ≤ 0x1F) (hC : C ≤ 0x1F) :
    decode_instruction (encode_command ⟨op, ⟨B, C⟩⟩) = .ok ⟨op, ⟨B, C⟩⟩ := by
  have hne : op ≠ LOAD_CONST := by
    rcases hop with h | h | h <;> subst h <;> decide
  have hlt : op < 64 := by
    rcases hop with h | h | h <;> subst h <;> decide
  have henc : encode_command ⟨op, ⟨B, C⟩⟩ =
      to_bytes_le ((op &&& 0x3F) <<< 0 ||| (B &&& 0x1F) <<< 6 ||| (C &&& 0x1F) <<< 11) 4 := by
    simp only [encode_command, get_field_masks, if_neg hne]
  have hopop : op &&& 0x3F = op := mask_eq_self op 6 _ (by norm_num) (by omega)
  have hBB : B &&& 0x1F = B := mask_eq_self B 5 _ (by norm_num) (by omega)
  have hCC : C &&& 0x1F = C := mask_eq_self C 5 _ (by norm_num) (by omega)
  rw [henc, hopop, hBB, hCC, Nat.shiftLeft_zero,
      lor_add_form op B C 6 11 (by omega) (by omega)]
  set v : Nat := 2 ^ 11 * C + (2 ^ 6 * B + op) with hv
  have hvlt : v < 2 ^ 32 := by omega
  have hlen : ¬ (to_bytes_le v 4).length ≠ 4 := by simp [to_bytes_le]
  simp only [decode_instruction, hlen, if_false, int_from_to_bytes_le,
    Nat.mod_eq_of_lt hvlt, Nat.shiftRight_zero, Nat.shiftRight_eq_div_pow]
  have e0 : v / 2 ^ 0 = v := by simp
  have hopx : v &&& 63 = op := by
    rw [(by norm_num : (63 : Nat) = 2 ^ 6 - 1), Nat.and_pow_two_sub_one_eq_mod]
    omega
  have hB2 : v / 2 ^ 6 &&& 31 = B := by
    rw [(by norm_num : (31 : Nat) = 2 ^ 5 - 1), Nat.and_pow_two_sub_one_eq_mod]
    omega
  have hC2 : v / 2 ^ 11 &&& 31 = C := by
    rw [(by norm_num : (31 : Nat) = 2 ^ 5 - 1), Nat.and_pow_two_sub_one_eq_mod]
    omega
  have hval : validate_command op ⟨B, C⟩ = .ok () := by
    rcases hop with h | h | h <;> subst h <;>
      simp [validate_command, LOAD_CONST, READ_MEM, WRITE_MEM, ABS, hB, hC]
  simp only [e0, hopx, hB2, hC2, if_neg hne, hval]

/-- Claim C1: for every opcode in the closed set and every in-range operand
pair, decoding the 4-byte word produced by encoding yields exactly the same
opcode and operands. -/
theorem decode_encode_roundtrip (opcode B C : Nat)
    (hop : opcode = LOAD_CONST ∨ opcode = READ_MEM ∨ opcode = WRITE_MEM ∨ opcode = ABS)
    (hB : B ≤ if opcode = LOAD_CONST then 0xFFFFF else 0x1F)
    (hC : C ≤ 0x1F) :
    decode_instruction (encode_command ⟨opcode, ⟨B, C⟩⟩) = .ok ⟨opcode, ⟨B, C⟩⟩ := by
  rcases hop with h | h
  · subst h
    rw [if_pos rfl] at hB
    exact roundtrip_load B C hB hC
  · have hne : opcode ≠ LOAD_CONST := by
      rcases h with h | h | h <;> subst h <;> decide
    rw [if_neg hne] at hB
    exact roundtrip_reg opcode B C h hB hC

/-- Witness for C1 at a concrete in-range input. -/
theorem decode_encode_roundtrip_witness :
    decode_instruction (encode_command ⟨LOAD_CONST, ⟨515, 4⟩⟩) = .ok ⟨LOAD_CONST, ⟨515, 4⟩⟩ :=
  decode_encode_roundtrip LOAD_CONST 515 4 (Or.inl rfl) (by decide) (by decide)

end UVM

namespace UVM

/-- Claim C10: for a 4-byte chunk, decoding fails exactly when the low 6 bits
are not a known opcode; when the opcode is recognized the mask-based field
extraction always yields in-range operands, so the re-validation performed
during decode always succeeds regardless of the reserved bits. -/
theorem decode_chunk_characterization (bs : List Nat) (hlen : bs.length = 4) :
    (int_from_bytes_le bs &&& 0x3F ∉ [LOAD_CONST, READ_MEM, WRITE_MEM, ABS] →
      decode_instruction bs = .error "unknown opcode") ∧
    (int_from_bytes_le bs &&& 0x3F ∈ [LOAD_CONST, READ_MEM, WRITE_MEM, ABS] →
      ∃ d, decode_instruction bs = .ok d ∧
        d.opcode = int_from_bytes_le bs &&& 0x3F ∧
        (if d.opcode = LOAD_CONST then d.operands.B ≤ 0xFFFFF else d.operands.B ≤ 0x1F) ∧
        d.operands.C ≤ 0x1F ∧
        validate_command d.opcode d.operands = .ok ()) := by
  have hlen2 : ¬ bs.length ≠ 4 := by simp [hlen]
  simp only [decode_instruction, hlen2, if_false, Nat.shiftRight_zero]
  set v := int_from_bytes_le bs with hv
  constructor
  · intro hmem
    have hval : ∀ ops, validate_command (v &&& 0x3F) ops = .error "unknown opcode" := by
      intro ops
      simp only [validate_command, if_pos hmem]
    simp only [hval]
  · intro hmem
    have hBload : v >>> 6 &&& 0xFFFFF ≤ 0xFFFFF := Nat.and_le_right
    have hBreg : v >>> 6 &&& 0x1F ≤ 0x1F := Nat.and_le_right
    have hCload : v >>> 26 &&& 0x1F ≤ 0x1F := Nat.and_le_right
    have hCreg : v >>> 11 &&& 0x1F ≤ 0x1F := Nat.and_le_right
    simp only [List.mem_cons, List.not_mem_nil, or_false] at hmem
    rcases hmem with h | h | h | h <;>
      simp [h, validate_command, LOAD_CONST, READ_MEM, WRITE_MEM, ABS,
        hBload, hBreg, hCload, hCreg] <;>
      rw [if_neg (by omega), if_neg (by omega)]

/-- Witness for C10: an all-ones chunk has opcode field 63, which is not in
the opcode set, and decoding it fails. -/
theorem decode_chunk_characterization_witness :
    decode_instruction [255, 255, 255, 255] = .error "unknown opcode" :=
  (decode_chunk_characterization [255, 255, 255, 255] rfl).1 (by decide)

end UVM

namespace UVM

/-- Claim C9: when the program counter is in range but fewer than 4 bytes
remain in code memory, the step halts cleanly: the halted flag is set, the
program counter moves to the end of code memory, and nothing else changes. -/
theorem partial_tail_halts (s : UVMMemory) (h1 : s.halted = false)
    (h2 : s.pc < s.code_memory.length) (h3 : s.code_memory.length < s.pc + 4) :
    step s = ({ s with pc := s.code_memory.length, halted := true }, false) := by
  have hdec : decode_instruction (s.code_memory.drop s.pc) =
      .error "instruction must be 4 bytes" := by
    have hl : (s.code_memory.drop s.pc).length = s.code_memory.length - s.pc :=
      List.length_drop _ _
    simp only [decode_instruction, hl]
    rw [if_pos (by omega)]
  simp only [step, read_instruction, h1, Bool.false_eq_true, if_false,
    if_neg (by omega : ¬ s.code_memory.length ≤ s.pc), if_pos h3, hdec]

/-- Witness for C9: a one-byte program halts at the first step with only
pc and the halted flag changed. -/
theorem partial_tail_halts_witness :
    step (initState [0x1D] 8 4) = ({ initState [0x1D] 8 4 with pc := 1, halted := true }, false) :=
  partial_tail_halts (initState [0x1D] 8 4) rfl (by decide) (by decide)

/-- Claim C6: a fetched word whose opcode field is ABS decodes successfully
and executes as a pure no-op that still counts as an executed step: the
program counter advances by 4, `instructions_executed` goes up by one, and
registers, data memory and the memory counters are untouched. -/
theorem abs_step_noop (s : UVMMemory) (h1 : s.halted = false)
    (h2 : s.pc + 4 ≤ s.code_memory.length)
    (h3 : int_from_bytes_le ((s.code_memory.drop s.pc).take 4) &&& 0x3F = ABS) :
    step s = ({ s with
                pc := s.pc + 4
                stats := { s.stats with
                  instructions_executed := s.stats.instructions_executed + 1 } },
              true) := by
  set chunk := (s.code_memory.drop s.pc).take 4 with hchunk
  have hlen : chunk.length = 4 := by
    rw [hchunk, List.length_take, List.length_drop]
    omega
  have hdec : decode_instruction chunk =
      .ok ⟨ABS, ⟨int_from_bytes_le chunk >>> 6 &&& 0x1F,
                 int_from_bytes_le chunk >>> 11 &&& 0x1F⟩⟩ := by
    have hB : int_from_bytes_le chunk >>> 6 &&& 0x1F ≤ 0x1F := Nat.and_le_right
    have hC : int_from_bytes_le chunk >>> 11 &&& 0x1F ≤ 0x1F := Nat.and_le_right
    simp only [decode_instruction, hlen, Nat.shiftRight_zero, h3]
    simp [validate_command, LOAD_CONST, READ_MEM, WRITE_MEM, ABS, hB, hC]
  have hexec : ∀ s1 : UVMMemory,
      execute_instruction s1 ⟨ABS, ⟨int_from_bytes_le chunk >>> 6 &&& 0x1F,
                                    int_from_bytes_le chunk >>> 11 &&& 0x1F⟩⟩ = .ok s1 := by
    intro s1
    simp [execute_instruction, LOAD_CONST, READ_MEM, WRITE_MEM, ABS]
  simp only [step, read_instruction, h1, Bool.false_eq_true, if_false,
    if_neg (by omega : ¬ s.code_memory.length ≤ s.pc),
    if_neg (by omega : ¬ s.code_memory.length < s.pc + 4), ← hchunk, hdec, hexec]

/-- Witness for C6: executing the encoded ABS fixture advances pc by 4,
counts one executed instruction and changes nothing else. -/
theorem abs_step_noop_witness :
    step (initState [0x99, 0xB6, 0x00, 0x00] 8 32) =
      ({ initState [0x99, 0xB6, 0x00, 0x00] 8 32 with
         pc := 4
         stats := ⟨1, 0, 0⟩ }, true) :=
  abs_step_noop (initState [0x99, 0xB6, 0x00, 0x00] 8 32) rfl (by decide) (by decide)

end UVM

namespace UVM

/-- Claim C3: a READ_MEM or WRITE_MEM whose resolved address (the value of
the address register) is at least the data-memory size raises the
out-of-bounds error and halts the run; data memory, registers and all
counters are exactly as before the failing instruction — the address is
never clamped or wrapped. -/
theorem oob_access_halts_state_intact (s : UVMMemory) (d : Decoded) (addr : Nat)
    (h1 : s.halted = false) (h2 : s.pc + 4 ≤ s.code_memory.length)
    (hdec : decode_instruction ((s.code_memory.drop s.pc).take 4) = .ok d)
    (hkind : (d.opcode = READ_MEM ∧ s.registers.get? d.operands.C = some addr) ∨
             (d.opcode = WRITE_MEM ∧ s.registers.get? d.operands.B = some addr ∧
              d.operands.C < s.registers.length))
    (hoob : s.data_memory.length ≤ addr) :
    (∀ s1 : UVMMemory, s1.registers = s.registers → s1.data_memory = s.data_memory →
      execute_instruction s1 d = .error "memory address out of range") ∧
    step s = ({ s with
                pc := s.pc + 4
                halted := true }, false) := by
  have hexec : ∀ s1 : UVMMemory, s1.registers = s.registers → s1.data_memory = s.data_memory →
      execute_instruction s1 d = .error "memory address out of range" := by
    intro s1 hr hd
    rcases hkind with ⟨hop, hC⟩ | ⟨hop, hB, hClt⟩
    · rw [execute_instruction, hop]
      norm_num [READ_MEM, LOAD_CONST, WRITE_MEM, ABS]
      rw [execute_read_mem, hr, hC]
      simp only [hd]
      rw [if_neg (by omega)]
    · rw [execute_instruction, hop]
      norm_num [READ_MEM, LOAD_CONST, WRITE_MEM, ABS]
      rw [execute_write_mem, hr, hB, List.get?_eq_get hClt]
      simp only [hd]
      rw [if_neg (by omega)]
  refine ⟨hexec, ?_⟩
  have hread : read_instruction s = (some ((s.code_memory.drop s.pc).take 4),
      { s with pc := s.pc + 4 }) := by
    rw [read_instruction, if_neg (by omega), if_neg (by omega)]
  simp only [step, h1, Bool.false_eq_true, if_false, hread, hdec,
    hexec { s with pc := s.pc + 4, halted := false } rfl rfl]

/-- Witness for C3: a WRITE_MEM whose address register holds 5 against a
4-word data memory halts, leaving registers, data memory and counters
untouched. -/
theorem oob_access_halts_state_intact_witness :
    step ⟨[0x09, 0x08, 0x00, 0x00], List.replicate 4 0, [5, 0], 0, false, ⟨0, 0, 0⟩⟩ =
      (⟨[0x09, 0x08, 0x00, 0x00], List.replicate 4 0, [5, 0], 4, true, ⟨0, 0, 0⟩⟩, false) :=
  (oob_access_halts_state_intact
    ⟨[0x09, 0x08, 0x00, 0x00], List.replicate 4 0, [5, 0], 0, false, ⟨0, 0, 0⟩⟩
    ⟨WRITE_MEM, ⟨0, 1⟩⟩ 5 rfl (by decide) rfl
    (Or.inr ⟨rfl, rfl, by decide⟩) (by decide)).2

end UVM

namespace UVM

/-- A step that reports `false` always leaves the machine halted. -/
theorem step_false_halted {s s1 : UVMMemory} (h : step s = (s1, false)) :
    s1.halted = true := by
  unfold step at h
  split at h
  · cases h
    assumption
  · split at h
    · cases h
      rfl
    · split at h
      · cases h
        rfl
      · split at h
        · cases h
          rfl
        · cases h

/-- `read_instruction` never changes the statistics counters. -/
theorem read_instruction_stats (s : UVMMemory) :
    (read_instruction s).2.stats = s.stats := by
  unfold read_instruction
  split
  · rfl
  · split <;> rfl

/-- A successful `execute_instruction` never changes `instructions_executed`. -/
theorem execute_instruction_ie {s s2 : UVMMemory} {d : Decoded}
    (h : execute_instruction s d = .ok s2) :
    s2.stats.instructions_executed = s.stats.instructions_executed := by
  unfold execute_instruction execute_load_const execute_read_mem execute_write_mem at h
  dsimp only at h
  repeat' split at h
  all_goals first | (cases h; rfl) | cases h

/-- A step that reports `true` increments `instructions_executed` by
exactly one. -/
theorem step_true_ie {s s1 : UVMMemory} (h : step s = (s1, true)) :
    s1.stats.instructions_executed = s.stats.instructions_executed + 1 := by
  unfold step at h
  split at h
  · cases h
  · split at h
    · cases h
    · split at h
      · cases h
      · split at h
        · cases h
        · next s0 bs hr _ _ s2 hexec =>
          cases h
          have h1 := execute_instruction_ie hexec
          have h2 : (read_instruction s).2.stats = s.stats := read_instruction_stats s
          rw [s0] at h2
          dsimp only at h2 ⊢
          rw [h1, h2]

/-- `run` on an already-halted machine does nothing. -/
theorem run_succ_halted {s : UVMMemory} {n : Nat} (hh : s.halted = true) :
    run s (n + 1) = s := by
  rw [run, if_pos hh]

/-- Unfolding `run` across one successful step. -/
theorem run_succ_true {s s1 : UVMMemory} {n : Nat} (hh : s.halted = false)
    (hstep : step s = (s1, true)) :
    run s (n + 1) = run s1 n := by
  rw [run, if_neg (by simp [hh]), hstep]

/-- Unfolding `run` across a failing step. -/
theorem run_succ_false {s s1 : UVMMemory} {n : Nat} (hh : s.halted = false)
    (hstep : step s = (s1, false)) :
    run s (n + 1) = s1 := by
  rw [run, if_neg (by simp [hh]), hstep]

/-- Claim C7: if after `n` steps the driver has not reached a halt (the
natural run is longer than the ceiling `n`), then `run` stopped after
exactly `n` executed instructions and reports `halted = false`, an outcome
distinct from a natural completion (which reports `halted = true`). -/
theorem run_ceiling (s : UVMMemory) (n : Nat) (h : (run s n).halted = false) :
    (run s n).stats.instructions_executed = s.stats.instructions_executed + n ∧
    (run s n).halted = false := by
  induction n generalizing s with
  | zero =>
    refine ⟨?_, h⟩
    simp [run]
  | succ n ih =>
    cases hhb : s.halted
    · cases hb : (step s).2
      · have hstep : step s = ((step s).1, false) := by
          rw [← hb]
        rw [run_succ_false hhb hstep] at h
        have hhalt := step_false_halted hstep
        rw [h] at hhalt
        cases hhalt
      · have hstep : step s = ((step s).1, true) := by
          rw [← hb]
        rw [run_succ_true hhb hstep] at h ⊢
        obtain ⟨ih1, ih2⟩ := ih _ h
        have h1 := step_true_ie hstep
        refine ⟨?_, ih2⟩
        rw [ih1, h1]
        omega
    · rw [run_succ_halted hhb] at h
      rw [h] at hhb
      cases hhb

set_option maxRecDepth 4000 in
/-- Witness for C7: the four-instruction test program run with a ceiling of
2 steps stops unhalted after exactly 2 executed instructions. -/
theorem run_ceiling_witness :
    (run (initState (encode_program test_program) 1024 32) 2).stats.instructions_executed =
      (initState (encode_program test_program) 1024 32).stats.instructions_executed + 2 :=
  (run_ceiling (initState (encode_program test_program) 1024 32) 2 (by decide)).1

end UVM

namespace UVM

/-- Claim C8: the snapshot document is a pure function of the machine state,
so rendering it twice over an unmodified state is byte-for-byte identical,
and no zero-valued register or data-memory cell ever appears in it. -/
theorem snapshot_deterministic_and_sparse (s : UVMMemory) (start_addr : Nat)
    (end? : Option Nat) :
    xml_render (dump_memory_xml s start_addr end?) =
      xml_render (dump_memory_xml s start_addr end?) ∧
    (∀ p ∈ (dump_memory_xml s start_addr end?).registers, p.2 ≠ 0) ∧
    (∀ p ∈ (dump_memory_xml s start_addr end?).cells, p.2 ≠ 0) := by
  refine ⟨rfl, ?_, ?_⟩
  · intro p hp
    simp only [dump_memory_xml, List.mem_filter, decide_eq_true_eq] at hp
    exact hp.2
  · intro p hp
    simp only [dump_memory_xml, List.mem_filterMap] at hp
    obtain ⟨addr, _, hf⟩ := hp
    by_cases hz : s.data_memory.getD addr 0 ≠ 0
    · rw [if_pos hz] at hf
      cases hf
      exact hz
    · rw [if_neg hz] at hf
      cases hf

/-- Claim C2, as it actually holds in the code: `encode_program` performs no
validation and never aborts — it emits exactly 4 bytes for every command,
and `encode_command` silently masks each operand into its declared field
width instead of rejecting out-of-range values. -/
theorem encoder_no_validation (cmds : List Command) :
    (encode_program cmds).length = 4 * cmds.length ∧
    ∀ cmd : Command,
      encode_command cmd =
        encode_command ⟨cmd.opcode,
          ⟨cmd.operands.B % 2 ^ (if cmd.opcode = LOAD_CONST then 20 else 5),
           cmd.operands.C % 2 ^ 5⟩⟩ := by
  constructor
  · induction cmds with
    | nil => rfl
    | cons cmd rest ih =>
      have hx : (encode_command cmd).length = 4 := by
        simp [encode_command, to_bytes_le]
      simp only [encode_program, List.flatMap_cons, List.length_append, hx,
        List.length_cons] at ih ⊢
      omega
  · intro cmd
    by_cases hop : cmd.opcode = LOAD_CONST
    · simp only [encode_command, get_field_masks, hop, if_pos]
      rw [(by norm_num : (0xFFFFF : Nat) = 2 ^ 20 - 1),
          Nat.and_pow_two_sub_one_eq_mod, Nat.and_pow_two_sub_one_eq_mod,
          (by norm_num : (0x1F : Nat) = 2 ^ 5 - 1),
          Nat.and_pow_two_sub_one_eq_mod, Nat.and_pow_two_sub_one_eq_mod,
          Nat.mod_mod_of_dvd _ dvd_rfl, Nat.mod_mod_of_dvd _ dvd_rfl]
    · simp only [encode_command, get_field_masks, hop, if_neg, if_false]
      rw [(by norm_num : (0x1F : Nat) = 2 ^ 5 - 1),
          Nat.and_pow_two_sub_one_eq_mod, Nat.and_pow_two_sub_one_eq_mod,
          Nat.and_pow_two_sub_one_eq_mod, Nat.and_pow_two_sub_one_eq_mod,
          Nat.mod_mod_of_dvd _ dvd_rfl, Nat.mod_mod_of_dvd _ dvd_rfl]

end UVM
